import Mathlib

/-!
Verification development for the fan presence / monitoring core of
ibm-phosphor-fan-presence.

Shallow embedding of:
  * `src/presence/json_config.cpp` — the configuration pass (`JsonConfig::process`,
    `JsonConfig::addPolicy`), the method factories (`method::getTach`,
    `method::getGpio`) and the redundancy-policy factories (`rpolicy::getAnyof`,
    `rpolicy::getFallback`);
  * `src/control/json/triggers/handlers.hpp` — the signal handlers
    `Handlers::propertiesChanged` and `Handlers::interfacesAdded`;
  * `src/monitor/tach_sensor.hpp` — the `TachSensor` timer state
    (`startTimer`, whose body lives outside the provided sources and is
    modelled from the specification).

JSON documents are modelled by the inductive `JValue`; the nlohmann
exceptions and the `std::runtime_error`s thrown by the configuration pass are
modelled by `Except ConfigError`.  A `unique_ptr<T>` result is `Option T`
(null = `none`); a thrown exception is `.error e`.
-/

namespace FanPresence

/-- A JSON value, as used by the configuration pass.  Mirrors the nlohmann
value shapes the code touches: null, booleans, numbers (the code only reads
unsigned integers), strings, arrays and objects. -/
inductive JValue where
  | null
  | bool (b : Bool)
  | num (n : Nat)
  | str (s : String)
  | arr (xs : List JValue)
  | obj (fields : List (String × JValue))

/-- Association-list lookup by string key; models `std::map::find` and
nlohmann object member access. -/
def lookupKey {α : Type} (key : String) : List (String × α) → Option α
  | [] => none
  | (k, v) :: rest => if k = key then some v else lookupKey key rest

/-- `j[key]` member access on an object; `none` when the member is absent or
`j` is not an object. -/
def jget (j : JValue) (key : String) : Option JValue :=
  match j with
  | .obj fields => lookupKey key fields
  | _ => none

/-- nlohmann `contains(key)`: true exactly when `j` is an object holding the
member. -/
def jcontains (j : JValue) (key : String) : Bool :=
  (jget j key).isSome

/-- nlohmann `size()`: 0 for null, element count for arrays and objects,
1 for every primitive. -/
def jsize : JValue → Nat
  | .null => 0
  | .arr xs => xs.length
  | .obj fields => fields.length
  | _ => 1

/-- The fatal errors of the configuration pass.  The first seven correspond
to the `std::runtime_error` throw sites in `json_config.cpp`; `typeMismatch`
models the nlohmann `type_error` exceptions thrown by `get<T>()` or by
iterating a value of the wrong shape. -/
inductive ConfigError where
  | missingFanProps
  | missingMethodType
  | invalidMethodType
  | missingTachProps
  | missingGpioProps
  | missingPolicyType
  | invalidPolicyType
  | typeMismatch
deriving DecidableEq

/-- A constructed presence sensor (`PolicyAccess<Tach, JsonConfig>` or
`PolicyAccess<Gpio, JsonConfig>`), carrying its construction parameters. -/
inductive PresenceSensor where
  | tach (fanIndex : Nat) (sensors : List String)
  | gpio (fanIndex : Nat) (physpath : String) (devpath : String) (key : Nat)
deriving DecidableEq

/-- `Fan = std::tuple<std::string, std::string>`: name and inventory path. -/
abbrev Fan : Type := String × String

/-- `fanPolicy = std::tuple<Fan, std::vector<std::unique_ptr<PresenceSensor>>>`:
the fan identity with its owned, ordered sensor list. -/
abbrev fanPolicy : Type := Fan × List PresenceSensor

/-- A constructed redundancy policy (`AnyOf` or `Fallback`), carrying the fan
identity and the ordered sensor references handed to the constructor. -/
inductive RedundancyPolicy where
  | anyOf (fan : Fan) (sensors : List PresenceSensor)
  | fallback (fan : Fan) (sensors : List PresenceSensor)
deriving DecidableEq

/-- `tolower` on one ASCII character, as applied by
`std::transform(..., tolower)` in the C locale. -/
def asciiLower (c : Char) : Char :=
  if 'A' ≤ c ∧ c ≤ 'Z' then Char.ofNat (c.toNat + 32) else c

/-- Lower-case a type string character by character, as the dispatch sites
do before the table lookup. -/
def strLower (s : String) : String :=
  ⟨s.data.map asciiLower⟩

/-- `method::getTach`: fatal error when `"sensors"` is absent or empty,
otherwise collect the sensor name strings and construct the tach presence
sensor for `fanIndex`. -/
def getTach (fanIndex : Nat) (method : JValue) : Except ConfigError (Option PresenceSensor) :=
  if ¬(jcontains method "sensors") ∨ jsize ((jget method "sensors").getD .null) = 0 then
    .error .missingTachProps
  else
    match jget method "sensors" with
    | some (.arr xs) =>
      match collectStrings xs with
      | some names => .ok (some (.tach fanIndex names))
      | none => .error .typeMismatch
    | _ => .error .typeMismatch
where
  /-- `sensor.get<std::string>()` over the array, in order; a non-string
  element throws a nlohmann `type_error`. -/
  collectStrings : List JValue → Option (List String)
    | [] => some []
    | .str s :: rest => (collectStrings rest).map (s :: ·)
    | _ => none

/-- `method::getGpio`: fatal error when any of `"physpath"`, `"devpath"`,
`"key"` is absent, otherwise read them and construct the gpio presence
sensor for `fanIndex`. -/
def getGpio (fanIndex : Nat) (method : JValue) : Except ConfigError (Option PresenceSensor) :=
  if ¬(jcontains method "physpath") ∨ ¬(jcontains method "devpath") ∨
      ¬(jcontains method "key") then
    .error .missingGpioProps
  else
    match jget method "physpath", jget method "devpath", jget method "key" with
    | some (.str physpath), some (.str devpath), some (.num key) =>
      .ok (some (.gpio fanIndex physpath devpath key))
    | _, _, _ => .error .typeMismatch

/-- `methodHandler`: factory(fanIndex, methodConfig) → owned sensor or null,
possibly throwing. -/
abbrev methodHandler : Type := Nat → JValue → Except ConfigError (Option PresenceSensor)

/-- `rpolicyHandler`: factory(fanRecord) → owned policy or null. -/
abbrev rpolicyHandler : Type := fanPolicy → Option RedundancyPolicy

/-- `rpolicy::getAnyof`: reference every owned sensor of the fan, in order,
and construct an `AnyOf` policy over them. -/
def getAnyof (fan : fanPolicy) : Option RedundancyPolicy :=
  let pSensors := fan.2.foldl (fun acc fanSensor => acc ++ [fanSensor]) []
  some (.anyOf fan.1 pSensors)

/-- `rpolicy::getFallback`: reference every owned sensor of the fan, in the
order given, and construct a `Fallback` policy over them. -/
def getFallback (fan : fanPolicy) : Option RedundancyPolicy :=
  let pSensors := fan.2.foldl (fun acc fanSensor => acc ++ [fanSensor]) []
  some (.fallback fan.1 pSensors)

/-- `JsonConfig::_methods`: the method-handler table. -/
def methodsTable : List (String × methodHandler) :=
  [("tach", getTach), ("gpio", getGpio)]

/-- `JsonConfig::_rpolicies`: the policy-handler table. -/
def rpoliciesTable : List (String × rpolicyHandler) :=
  [("anyof", getAnyof), ("fallback", getFallback)]

/-- The mutable configuration state: the fan-record vector `_fans` together
with its reserved capacity, and the static policy vector `_policies`. -/
structure ConfigState where
  fans : List fanPolicy
  fansCap : Nat
  policies : List RedundancyPolicy
deriving DecidableEq

/-- The method loop body of `JsonConfig::process` for one fan: iterate the
declared methods in order; a method without `"type"` is fatal; the lowered
type string is looked up in `_methods` and the factory called (it may throw);
a non-null sensor is appended, a null one silently skipped; an unknown type
is fatal. -/
def processMethods (fanIndex : Nat) : List JValue → Except ConfigError (List PresenceSensor)
  | [] => .ok []
  | method :: rest =>
    if ¬(jcontains method "type") then
      .error .missingMethodType
    else
      match jget method "type" with
      | some (.str ty) =>
        match lookupKey (strLower ty) methodsTable with
        | some func =>
          match func fanIndex method with
          | .error e => .error e
          | .ok none => processMethods fanIndex rest
          | .ok (some sensor) => (processMethods fanIndex rest).map (sensor :: ·)
        | none => .error .invalidMethodType
      | _ => .error .typeMismatch

/-- `JsonConfig::addPolicy`: a policy config without `"type"` is fatal; the
lowered type string is looked up in `_rpolicies` and the factory called on
`_fans.back()`; a non-null policy is appended to `_policies`, a null one
silently skipped; an unknown type is fatal. -/
def addPolicy (rpolicy : JValue) (s : ConfigState) : ConfigState × Option ConfigError :=
  if ¬(jcontains rpolicy "type") then
    (s, some .missingPolicyType)
  else
    match jget rpolicy "type" with
    | some (.str ty) =>
      match lookupKey (strLower ty) rpoliciesTable with
      | some func =>
        match s.fans.getLast? with
        | some fan =>
          match func fan with
          | some policy => ({ s with policies := s.policies ++ [policy] }, none)
          | none => (s, none)
        | none => (s, some .typeMismatch)
      | none => (s, some .invalidPolicyType)
    | _ => (s, some .typeMismatch)

/-- One iteration of the fan loop of `JsonConfig::process`: require the four
fan keys; build the sensor list from the declared methods (passing
`_fans.size()` as the fan index); append the fan record; then add its
redundancy policy.  On a throw the state mutated so far is kept: `_fans` is
a member and `_policies` a static, neither is rolled back. -/
def processMember (member : JValue) (s : ConfigState) : ConfigState × Option ConfigError :=
  if ¬(jcontains member "name" ∧ jcontains member "path" ∧
        jcontains member "methods" ∧ jcontains member "rpolicy") then
    (s, some .missingFanProps)
  else
    match jget member "methods" with
    | some (.arr methods) =>
      match processMethods s.fans.length methods with
      | .error e => (s, some e)
      | .ok sensors =>
        match jget member "name", jget member "path" with
        | some (.str name), some (.str path) =>
          let s₂ : ConfigState := { s with fans := s.fans ++ [((name, path), sensors)] }
          match jget member "rpolicy" with
          | some rpolicy => addPolicy rpolicy s₂
          | none => (s₂, some .typeMismatch)
        | _, _ => (s, some .typeMismatch)
    | some _ => (s, some .typeMismatch)
    | none => (s, some .typeMismatch)

/-- The fan loop of `JsonConfig::process`: process each fan entry in document
order, stopping at the first throw with the state accumulated so far. -/
def processLoop : List JValue → ConfigState → ConfigState × Option ConfigError
  | [], s => (s, none)
  | member :: rest, s =>
    match processMember member s with
    | (s₂, some e) => (s₂, some e)
    | (s₂, none) => processLoop rest s₂

/-- Modelled from the spec: `SignalObject` is declared in
`control/json/manager.hpp`, which is not among the provided sources; per the
spec it is the registered object tuple (path, interface, property) the
handlers match against, accessed via `std::get<Path>`, `std::get<Intf>`,
`std::get<Prop>`. -/
structure SignalObject where
  path : String
  intf : String
  prop : String

/-- The argument tuple of a `Manager::setProperty(path, interface, property,
value)` call issued by a handler.  The manager itself is an external
collaborator; the handlers are specified by which call they issue. -/
abbrev SetPropertyCall (V : Type) : Type := String × String × String × V

/-- `Handlers::propertiesChanged`: the message carries an interface name and
a property dictionary.  Mismatched interface or absent property: return
false without touching the cache; otherwise issue `setProperty` with the
registered path, interface and property and the carried value, and return
true. -/
def propertiesChanged {V : Type} (msgIntf : String) (msgProps : List (String × V))
    (obj : SignalObject) : Bool × Option (SetPropertyCall V) :=
  if ¬(msgIntf = obj.intf) then
    (false, none)
  else
    match lookupKey obj.prop msgProps with
    | none => (false, none)
    | some value => (true, some (obj.path, obj.intf, obj.prop, value))

/-- `Handlers::interfacesAdded`: the message carries an object path and a
dictionary of interfaces to property dictionaries.  Mismatched path, absent
interface, or absent property: return false without touching the cache;
otherwise issue `setProperty` with the registered path, interface and
property and the carried value, and return true. -/
def interfacesAdded {V : Type} (msgPath : String)
    (intfProps : List (String × List (String × V))) (obj : SignalObject) :
    Bool × Option (SetPropertyCall V) :=
  if ¬(msgPath = obj.path) then
    (false, none)
  else
    match lookupKey obj.intf intfProps with
    | none => (false, none)
    | some props =>
      match lookupKey obj.prop props with
      | none => (false, none)
      | some value => (true, some (obj.path, obj.intf, obj.prop, value))

/-- `TimerMode` from `tach_sensor.hpp`: which debounce transition the single
timer is confirming. -/
inductive TimerMode where
  | func
  | nonfunc
deriving DecidableEq

/-- The timer-related state of one `TachSensor`: the configured delays
(`_funcDelay`, `_timeout`), the mode flag `_timerMode`, and the single timer
object `_timer` (whether it is enabled and the delay it was armed with). -/
structure TachSensorTimer where
  funcDelay : Nat
  timeout : Nat
  timerMode : TimerMode
  timerEnabled : Bool
  timerRemaining : Nat
deriving DecidableEq

/-- Whether the timer for the given mode is currently active: the single
timer is enabled and its mode flag matches. -/
def timerArmed (s : TachSensorTimer) (mode : TimerMode) : Bool :=
  s.timerEnabled && s.timerMode = mode

/-- Modelled from the spec: the body of `TachSensor::getDelay` lives in
`tach_sensor.cpp`, which is not among the provided sources.  Per the spec
(§4.1), the func timer is armed with delay `funcDelay` and the nonfunc timer
with delay `timeout`. -/
def getDelay (s : TachSensorTimer) (mode : TimerMode) : Nat :=
  match mode with
  | .func => s.funcDelay
  | .nonfunc => s.timeout

/-- Modelled from the spec: the body of `TachSensor::startTimer` lives in
`tach_sensor.cpp`, which is not among the provided sources.  Per the spec
and the header doc comment, `startTimer(mode)` is a no-op when that mode's
timer is already active; otherwise it stops the currently running timer (the
other mode's) and arms this mode's timer from zero with its delay. -/
def startTimer (s : TachSensorTimer) (mode : TimerMode) : TachSensorTimer :=
  if timerArmed s mode then
    s
  else
    { s with timerEnabled := true, timerMode := mode,
             timerRemaining := getDelay s mode }

/-- `JsonConfig::process`: reserve `_fans` to the number of document entries
(before any record is appended), then run the fan loop.  `pols` is the
content of the static `_policies` vector when the load begins; `_fans` is a
fresh member vector, so it starts empty. -/
def process (jsonConf : List JValue) (pols : List RedundancyPolicy) :
    ConfigState × Option ConfigError :=
  processLoop jsonConf { fans := [], fansCap := jsonConf.length, policies := pols }

/-! Sample configuration documents used by concrete witnesses. -/

/-- A well-formed fan entry: one gpio method, anyof policy. -/
def fanGpioAnyof : JValue :=
  .obj [("name", .str "fan0"), ("path", .str "/p0"),
    ("methods", .arr [.obj [("type", .str "gpio"), ("physpath", .str "a"),
      ("devpath", .str "b"), ("key", .num 1)]]),
    ("rpolicy", .obj [("type", .str "anyof")])]

/-- A fan entry whose single method entry is missing the "type" key. -/
def fanNoMethodType : JValue :=
  .obj [("name", .str "fan1"), ("path", .str "/p1"),
    ("methods", .arr [.obj []]),
    ("rpolicy", .obj [("type", .str "anyof")])]

/-! Helper lemmas. -/

theorem foldl_snoc {α : Type} (l acc : List α) :
    l.foldl (fun a x => a ++ [x]) acc = acc ++ l := by
  induction l generalizing acc with
  | nil => simp
  | cons x xs ih => simp [List.foldl_cons, ih]

theorem rpoliciesTable_total (k : String) (f : rpolicyHandler)
    (h : lookupKey k rpoliciesTable = some f) (fan : fanPolicy) :
    ∃ p, f fan = some p := by
  simp only [rpoliciesTable, lookupKey] at h
  split at h
  · cases h
    exact ⟨_, rfl⟩
  · split at h
    · cases h
      exact ⟨_, rfl⟩
    · cases h

theorem methodsTable_no_null (k : String) (f : methodHandler)
    (h : lookupKey k methodsTable = some f) (i : Nat) (m : JValue) :
    f i m ≠ .ok none := by
  have hcases : f = getTach ∨ f = getGpio := by
    simp only [methodsTable, lookupKey] at h
    split at h
    · cases h; exact Or.inl rfl
    · split at h
      · cases h; exact Or.inr rfl
      · cases h
  rcases hcases with hf | hf <;> subst hf
  · unfold getTach
    split
    · simp
    · split <;> simp
      split <;> simp
  · unfold getGpio
    split
    · simp
    · split <;> simp

theorem addPolicy_cases (rp : JValue) (s : ConfigState) :
    (∃ e, addPolicy rp s = (s, some e)) ∨
    (∃ p, addPolicy rp s = ({ s with policies := s.policies ++ [p] }, none)) := by
  unfold addPolicy
  split
  · exact Or.inl ⟨_, rfl⟩
  · split
    · rename_i ty hget
      split
      · rename_i f hf
        split
        · rename_i fan hfan
          obtain ⟨p, hp⟩ := rpoliciesTable_total _ _ hf fan
          rw [hp]
          exact Or.inr ⟨p, rfl⟩
        · exact Or.inl ⟨_, rfl⟩
      · exact Or.inl ⟨_, rfl⟩
    · exact Or.inl ⟨_, rfl⟩

theorem processMember_cases (member : JValue) (s : ConfigState) :
    (∃ e, processMember member s = (s, some e)) ∨
    (∃ fan e, processMember member s = ({ s with fans := s.fans ++ [fan] }, some e)) ∨
    (∃ fan p, processMember member s =
      ({ s with fans := s.fans ++ [fan], policies := s.policies ++ [p] }, none)) := by
  unfold processMember
  split
  · exact Or.inl ⟨_, rfl⟩
  · split
    · rename_i methods hmethods
      split
      · exact Or.inl ⟨_, rfl⟩
      · rename_i sensors hsensors
        split
        · rename_i name path hname hpath
          split
          · rename_i rp hrp
            rcases addPolicy_cases rp { s with fans := s.fans ++ [((name, path), sensors)] } with
              ⟨e, he⟩ | ⟨p, hp⟩
            · rw [he]
              exact Or.inr (Or.inl ⟨_, e, rfl⟩)
            · rw [hp]
              exact Or.inr (Or.inr ⟨_, p, rfl⟩)
          · exact Or.inr (Or.inl ⟨_, _, rfl⟩)
        · exact Or.inl ⟨_, rfl⟩
    · exact Or.inl ⟨_, rfl⟩
    · exact Or.inl ⟨_, rfl⟩

theorem processMember_state (member : JValue) (s : ConfigState) :
    (processMember member s).1.fansCap = s.fansCap ∧
    (processMember member s).1.fans.length ≤ s.fans.length + 1 ∧
    (∃ t, (processMember member s).1.policies = s.policies ++ t) ∧
    ((processMember member s).2 = none →
      (processMember member s).1.fans.length = s.fans.length + 1 ∧
      (processMember member s).1.policies.length = s.policies.length + 1) := by
  rcases processMember_cases member s with ⟨e, he⟩ | ⟨fan, e, he⟩ | ⟨fan, p, he⟩ <;>
    rw [he] <;> simp

theorem processLoop_state (ms : List JValue) (s : ConfigState) :
    (processLoop ms s).1.fansCap = s.fansCap ∧
    (processLoop ms s).1.fans.length ≤ s.fans.length + ms.length ∧
    (∃ t, (processLoop ms s).1.policies = s.policies ++ t) ∧
    ((processLoop ms s).2 = none →
      (processLoop ms s).1.fans.length = s.fans.length + ms.length ∧
      (processLoop ms s).1.policies.length = s.policies.length + ms.length) := by
  induction ms generalizing s with
  | nil => simp [processLoop]
  | cons m rest ih =>
    simp only [processLoop]
    obtain ⟨hcap, hlen, ⟨t, ht⟩, hok⟩ := processMember_state m s
    split
    · rename_i s₂ e heq
      rw [heq] at hcap hlen ht
      exact ⟨hcap, by simpa using Nat.le_trans hlen (by simp), ⟨t, ht⟩,
        fun h => by simp at h⟩
    · rename_i s₂ heq
      rw [heq] at hcap hlen ht hok
      obtain ⟨hcap₂, hlen₂, ⟨t₂, ht₂⟩, hok₂⟩ := ih s₂
      refine ⟨by rw [hcap₂, hcap], ?_, ⟨t ++ t₂, by rw [ht₂, ht, List.append_assoc]⟩, ?_⟩
      · calc (processLoop rest s₂).1.fans.length
            ≤ s₂.fans.length + rest.length := hlen₂
          _ ≤ (s.fans.length + 1) + rest.length := by
              exact Nat.add_le_add_right hlen rest.length
          _ = s.fans.length + (m :: rest).length := by
              simp [List.length_cons]
              omega
      · intro h
        obtain ⟨hfans, hpols⟩ := hok₂ h
        obtain ⟨hfans₁, hpols₁⟩ := hok rfl
        constructor
        · rw [hfans, hfans₁]
          simp [List.length_cons]
          omega
        · rw [hpols, hpols₁]
          simp [List.length_cons]
          omega

theorem processLoop_append (a b : List JValue) (s : ConfigState) :
    processLoop (a ++ b) s =
      match processLoop a s with
      | (s₂, some e) => (s₂, some e)
      | (s₂, none) => processLoop b s₂ := by
  induction a generalizing s with
  | nil => simp [processLoop]
  | cons m rest ih =>
    simp only [List.cons_append, processLoop]
    split
    · rfl
    · exact ih _

theorem getTach_no_invalid (i : Nat) (m : JValue) :
    getTach i m ≠ .error .invalidMethodType := by
  unfold getTach
  split
  · simp
  · split
    · split <;> simp
    · simp

theorem getGpio_no_invalid (i : Nat) (m : JValue) :
    getGpio i m ≠ .error .invalidMethodType := by
  unfold getGpio
  split
  · simp
  · split <;> simp

theorem collectStrings_length (xs : List JValue) (names : List String)
    (h : getTach.collectStrings xs = some names) : names.length = xs.length := by
  induction xs generalizing names with
  | nil =>
    simp [getTach.collectStrings] at h
    simp [← h]
  | cons x rest ih =>
    cases x <;> simp [getTach.collectStrings] at h
    obtain ⟨ys, hys, hnames⟩ := h
    simp [← hnames, ih ys hys]

theorem addPolicy_fans (rp : JValue) (s : ConfigState) :
    (addPolicy rp s).1.fans = s.fans ∧ (addPolicy rp s).1.fansCap = s.fansCap := by
  rcases addPolicy_cases rp s with ⟨e, he⟩ | ⟨p, hp⟩
  · rw [he]
    exact ⟨rfl, rfl⟩
  · rw [hp]
    exact ⟨rfl, rfl⟩

theorem processMember_ok (member : JValue) (s s₂ : ConfigState)
    (h : processMember member s = (s₂, none)) :
    ∃ name path sensors methods,
      jget member "methods" = some (.arr methods) ∧
      processMethods s.fans.length methods = .ok sensors ∧
      jget member "name" = some (.str name) ∧
      jget member "path" = some (.str path) ∧
      s₂.fans = s.fans ++ [((name, path), sensors)] := by
  unfold processMember at h
  split at h
  · simp at h
  · split at h
    · rename_i methods hmethods
      split at h
      · simp at h
      · rename_i sensors hsensors
        split at h
        · rename_i name path hname hpath
          split at h
          · rename_i rp hrp
            refine ⟨name, path, sensors, methods, hmethods, hsensors, hname, hpath, ?_⟩
            have hfans := (addPolicy_fans rp
              { s with fans := s.fans ++ [((name, path), sensors)] }).1
            rw [h] at hfans
            exact hfans
          · simp at h
        · simp at h
    · simp at h
    · simp at h

/-! Claim theorems. -/

/-- C2: `propertiesChanged` returns false and issues no cache update when the
message's interface differs from the registered interface or the registered
property is absent from the changed-properties map; otherwise it issues
`setProperty` with the registered path, interface, property and the carried
value and returns true; and it returns true exactly when a cache update was
issued. -/
theorem propertiesChanged_spec {V : Type} (msgIntf : String)
    (msgProps : List (String × V)) (obj : SignalObject) :
    ((msgIntf ≠ obj.intf ∨ lookupKey obj.prop msgProps = none) →
      propertiesChanged msgIntf msgProps obj = (false, none)) ∧
    (∀ value, msgIntf = obj.intf → lookupKey obj.prop msgProps = some value →
      propertiesChanged msgIntf msgProps obj =
        (true, some (obj.path, obj.intf, obj.prop, value))) ∧
    ((propertiesChanged msgIntf msgProps obj).1 = true ↔
      ∃ c, (propertiesChanged msgIntf msgProps obj).2 = some c) := by
  refine ⟨?_, ?_, ?_⟩
  · rintro (hintf | hprop)
    · simp [propertiesChanged, hintf]
    · unfold propertiesChanged
      split
      · rfl
      · rw [hprop]
  · intro value hintf hprop
    simp [propertiesChanged, hintf, hprop]
  · unfold propertiesChanged
    split
    · simp
    · split <;> simp

/-- C2 witness: a matching message updates the cache; concrete mismatching
and matching inputs. -/
theorem propertiesChanged_spec_witness :
    propertiesChanged "xyz.Sensor" [("Value", 7)] ⟨"/fan0", "xyz.Sensor", "Value"⟩ =
      (true, some ("/fan0", "xyz.Sensor", "Value", 7)) :=
  (propertiesChanged_spec "xyz.Sensor" [("Value", 7)]
    ⟨"/fan0", "xyz.Sensor", "Value"⟩).2.1 7 rfl (by decide)

/-- C3: `interfacesAdded` returns false and issues no cache update when the
message's object path differs from the registered path, or the registered
interface is absent from the interface map, or the registered property is
absent from that interface's property map; otherwise it issues `setProperty`
with the registered path, interface, property and the carried value and
returns true; and it returns true exactly when a cache update was issued. -/
theorem interfacesAdded_spec {V : Type} (msgPath : String)
    (intfProps : List (String × List (String × V))) (obj : SignalObject) :
    ((msgPath ≠ obj.path ∨ lookupKey obj.intf intfProps = none ∨
        (∃ props, lookupKey obj.intf intfProps = some props ∧
          lookupKey obj.prop props = none)) →
      interfacesAdded msgPath intfProps obj = (false, none)) ∧
    (∀ props value, msgPath = obj.path →
      lookupKey obj.intf intfProps = some props →
      lookupKey obj.prop props = some value →
      interfacesAdded msgPath intfProps obj =
        (true, some (obj.path, obj.intf, obj.prop, value))) ∧
    ((interfacesAdded msgPath intfProps obj).1 = true ↔
      ∃ c, (interfacesAdded msgPath intfProps obj).2 = some c) := by
  refine ⟨?_, ?_, ?_⟩
  · rintro (hpath | hintf | ⟨props, hprops, hprop⟩)
    · simp [interfacesAdded, hpath]
    · unfold interfacesAdded
      split
      · rfl
      · rw [hintf]
    · unfold interfacesAdded
      split
      · rfl
      · simp only [hprops]
        rw [hprop]
  · intro props value hpath hprops hprop
    simp [interfacesAdded, hpath, hprops, hprop]
  · unfold interfacesAdded
    split
    · simp
    · split
      · simp
      · split <;> simp

/-- C3 witness: a matching interfaces-added message updates the cache at a
concrete input. -/
theorem interfacesAdded_spec_witness :
    interfacesAdded "/fan0" [("xyz.Item", [("Present", 1)])]
      ⟨"/fan0", "xyz.Item", "Present"⟩ =
      (true, some ("/fan0", "xyz.Item", "Present", 1)) :=
  (interfacesAdded_spec "/fan0" [("xyz.Item", [("Present", 1)])]
    ⟨"/fan0", "xyz.Item", "Present"⟩).2.1 [("Present", 1)] 1 rfl (by decide) (by decide)

/-- C8: `startTimer mode` is a no-op when that mode's timer is already
active; otherwise the resulting state has this mode's timer armed from zero
with its configured delay (`funcDelay` for func, `timeout` for nonfunc) and
the other mode's timer not armed; and in no state are the func and nonfunc
timers armed simultaneously. -/
theorem startTimer_spec (s : TachSensorTimer) (mode : TimerMode) :
    (timerArmed s mode = true → startTimer s mode = s) ∧
    (timerArmed s mode = false →
      startTimer s mode =
        { s with timerEnabled := true, timerMode := mode,
                 timerRemaining := getDelay s mode } ∧
      timerArmed (startTimer s mode) mode = true ∧
      (∀ other, other ≠ mode → timerArmed (startTimer s mode) other = false) ∧
      (startTimer s mode).timerRemaining =
        (match mode with
         | .func => s.funcDelay
         | .nonfunc => s.timeout)) ∧
    ¬(timerArmed s .func = true ∧ timerArmed s .nonfunc = true) := by
  refine ⟨?_, ?_, ?_⟩
  · intro h
    simp [startTimer, h]
  · intro h
    have h2 : startTimer s mode =
        { s with timerEnabled := true, timerMode := mode,
                 timerRemaining := getDelay s mode } := by
      simp [startTimer, h]
    refine ⟨h2, ?_, ?_, ?_⟩
    · rw [h2]
      simp [timerArmed]
    · intro other hother
      rw [h2]
      simp [timerArmed, Ne.symm hother]
    · rw [h2]
      cases mode <;> simp [getDelay]
  · rintro ⟨hf, hnf⟩
    simp [timerArmed] at hf hnf
    rw [hf.2] at hnf
    exact absurd hnf.2 (by simp)

/-- C8 witness: starting the nonfunc timer from a state whose func timer is
not armed arms the nonfunc timer with the configured timeout. -/
theorem startTimer_spec_witness :
    timerArmed ⟨2, 3, TimerMode.func, false, 0⟩ TimerMode.nonfunc = false ∧
    startTimer ⟨2, 3, TimerMode.func, false, 0⟩ TimerMode.nonfunc =
      { funcDelay := 2, timeout := 3, timerMode := TimerMode.nonfunc,
        timerEnabled := true, timerRemaining := 3 } :=
  ⟨by decide,
   ((startTimer_spec ⟨2, 3, TimerMode.func, false, 0⟩ TimerMode.nonfunc).2.1
     (by decide)).1⟩

/-- C4: the handler tables are keyed exactly by the lower-case strings
"tach"/"gpio" and "anyof"/"fallback"; dispatch looks up the lower-cased type
string, so it is case-insensitive; and the invalid-type fatal error is
raised exactly when the lowered string is not one of the keys. -/
theorem dispatch_tables_spec :
    (methodsTable.map Prod.fst = ["tach", "gpio"] ∧
     rpoliciesTable.map Prod.fst = ["anyof", "fallback"]) ∧
    (∀ s₁ s₂ : String, strLower s₁ = strLower s₂ →
      lookupKey (strLower s₁) methodsTable = lookupKey (strLower s₂) methodsTable ∧
      lookupKey (strLower s₁) rpoliciesTable = lookupKey (strLower s₂) rpoliciesTable) ∧
    (∀ fanIndex method ty, jget method "type" = some (.str ty) →
      (processMethods fanIndex [method] = .error .invalidMethodType ↔
        ¬(strLower ty = "tach" ∨ strLower ty = "gpio"))) ∧
    (∀ rpolicy s ty, jget rpolicy "type" = some (.str ty) →
      ((addPolicy rpolicy s).2 = some .invalidPolicyType ↔
        ¬(strLower ty = "anyof" ∨ strLower ty = "fallback"))) := by
  refine ⟨⟨rfl, rfl⟩, ?_, ?_, ?_⟩
  · intro s₁ s₂ h
    rw [h]
    exact ⟨rfl, rfl⟩
  · intro fanIndex method ty hty
    have hc : jcontains method "type" = true := by simp [jcontains, hty]
    simp only [processMethods, hc, not_true_eq_false, if_false, hty]
    by_cases h1 : strLower ty = "tach"
    · simp only [h1, methodsTable, lookupKey, if_pos rfl]
      cases hr : getTach fanIndex method with
      | error e =>
        have hne : e ≠ ConfigError.invalidMethodType := by
          intro he
          exact getTach_no_invalid fanIndex method (he ▸ hr)
        simp [hr, hne]
      | ok r =>
        cases r <;> simp [hr, Except.map]
    · by_cases h2 : strLower ty = "gpio"
      · have htach : ¬("tach" = strLower ty) := fun hcontra => h1 hcontra.symm
        simp only [methodsTable, lookupKey, if_neg htach, h2, if_pos rfl]
        cases hr : getGpio fanIndex method with
        | error e =>
          have hne : e ≠ ConfigError.invalidMethodType := by
            intro he
            exact getGpio_no_invalid fanIndex method (he ▸ hr)
          simp [hr, hne, h1]
        | ok r =>
          cases r <;> simp [hr, h1, Except.map]
      · have hne1 : ¬("tach" = strLower ty) := fun hcontra => h1 hcontra.symm
        have hne2 : ¬("gpio" = strLower ty) := fun hcontra => h2 hcontra.symm
        simp only [methodsTable, lookupKey, if_neg hne1, if_neg hne2]
        simp [h1, h2]
  · intro rpolicy s ty hty
    have hc : jcontains rpolicy "type" = true := by simp [jcontains, hty]
    simp only [addPolicy, hc, not_true_eq_false, if_false, hty]
    by_cases h1 : strLower ty = "anyof"
    · simp only [h1, rpoliciesTable, lookupKey, if_pos rfl]
      cases hl : s.fans.getLast? with
      | none => simp [h1]
      | some fan =>
        obtain ⟨p, hp⟩ := rpoliciesTable_total "anyof" getAnyof (by rfl) fan
        simp [hp, h1]
    · by_cases h2 : strLower ty = "fallback"
      · have hne : ¬("anyof" = strLower ty) := fun hcontra => h1 hcontra.symm
        simp only [rpoliciesTable, lookupKey, if_neg hne, h2, if_pos rfl]
        cases hl : s.fans.getLast? with
        | none => simp [h2]
        | some fan =>
          obtain ⟨p, hp⟩ := rpoliciesTable_total "fallback" getFallback
            (by simp [rpoliciesTable, lookupKey]) fan
          simp [hp, h2]
      · have hne1 : ¬("anyof" = strLower ty) := fun hcontra => h1 hcontra.symm
        have hne2 : ¬("fallback" = strLower ty) := fun hcontra => h2 hcontra.symm
        simp only [rpoliciesTable, lookupKey, if_neg hne1, if_neg hne2]
        simp [h1, h2]

/-- C4 witness: dispatch of the mixed-case "TaCh" succeeds (no invalid-type
error) while "watermill" is the invalid-type fatal error, on concrete method
configs; and mixed-case "FALLBACK" dispatches like "fallback". -/
theorem dispatch_tables_spec_witness :
    ¬(processMethods 0 [JValue.obj [("type", .str "TaCh"),
        ("sensors", .arr [.str "s0"])]] = .error .invalidMethodType) ∧
    processMethods 0 [JValue.obj [("type", .str "watermill")]] =
      .error .invalidMethodType ∧
    lookupKey (strLower "FALLBACK") rpoliciesTable =
      lookupKey (strLower "fallback") rpoliciesTable := by
  refine ⟨?_, ?_, ?_⟩
  · rw [dispatch_tables_spec.2.2.1 0 (JValue.obj [("type", .str "TaCh"),
      ("sensors", .arr [.str "s0"])]) "TaCh" rfl]
    decide
  · rw [dispatch_tables_spec.2.2.1 0 (JValue.obj [("type", .str "watermill")])
      "watermill" rfl]
    decide
  · exact (dispatch_tables_spec.2.1 "FALLBACK" "fallback" (by decide)).2

/-- C5: `getFallback` hands the Fallback constructor exactly the fan
record's owned sensor list, unchanged and in order; the sensor list built by
the method loop is compositional in declared order (processing `a ++ b`
concatenates the sensors of `a` with those of `b`, in that order); and a
successfully processed fan entry's record holds exactly the sensors produced
by its declared methods, which `getFallback` then passes through unchanged. -/
theorem fallback_order_spec :
    (∀ fan : fanPolicy, getFallback fan = some (.fallback fan.1 fan.2)) ∧
    (∀ fanIndex (a b : List JValue),
      processMethods fanIndex (a ++ b) =
        match processMethods fanIndex a with
        | .error e => .error e
        | .ok xs =>
          match processMethods fanIndex b with
          | .error e => .error e
          | .ok ys => .ok (xs ++ ys)) ∧
    (∀ member s s₂, processMember member s = (s₂, none) →
      ∃ name path sensors methods,
        jget member "methods" = some (.arr methods) ∧
        processMethods s.fans.length methods = .ok sensors ∧
        s₂.fans = s.fans ++ [((name, path), sensors)] ∧
        getFallback ((name, path), sensors) =
          some (.fallback (name, path) sensors)) := by
  have hfb : ∀ fan : fanPolicy, getFallback fan = some (.fallback fan.1 fan.2) := by
    intro fan
    unfold getFallback
    rw [foldl_snoc]
    simp
  refine ⟨hfb, ?_, ?_⟩
  · intro fanIndex a b
    induction a with
    | nil =>
      cases hb : processMethods fanIndex b <;> simp [processMethods, hb]
    | cons m rest ih =>
      by_cases hc : jcontains m "type" = true
      · simp only [List.cons_append, processMethods, hc, not_true_eq_false,
          if_false]
        cases hty : jget m "type" with
        | none => rfl
        | some v =>
          cases v with
          | str ty =>
            simp only []
            cases hf : lookupKey (strLower ty) methodsTable with
            | none => rfl
            | some f =>
              simp only []
              cases hr : f fanIndex m with
              | error e => rfl
              | ok r =>
                cases r with
                | none => exact ih
                | some sensor =>
                  simp only [List.append_eq]
                  rw [ih]
                  cases ha : processMethods fanIndex rest <;>
                    cases hb : processMethods fanIndex b <;> simp [Except.map]
          | null => rfl
          | bool b₂ => rfl
          | num n => rfl
          | arr xs => rfl
          | obj fields => rfl
      · have hc2 : jcontains m "type" = false := by simpa using hc
        simp [List.cons_append, processMethods, hc2]
  · intro member s s₂ h
    obtain ⟨name, path, sensors, methods, hmethods, hsensors, _, _, hfans⟩ :=
      processMember_ok member s s₂ h
    exact ⟨name, path, sensors, methods, hmethods, hsensors, hfans,
      hfb ((name, path), sensors)⟩

/-- C5 witness: processing a concrete fan entry with two methods yields a
record whose sensor list is in declared order, and `getFallback` passes it
to the Fallback constructor unchanged. -/
theorem fallback_order_spec_witness :
    ∃ name path sensors methods,
      jget fanGpioAnyof "methods" = some (.arr methods) ∧
      processMethods (ConfigState.mk [] 1 []).fans.length methods = .ok sensors ∧
      ((process [fanGpioAnyof] []).1).fans =
        (ConfigState.mk [] 1 []).fans ++ [((name, path), sensors)] ∧
      getFallback ((name, path), sensors) =
        some (.fallback (name, path) sensors) := by
  have h := fallback_order_spec.2.2 fanGpioAnyof (ConfigState.mk [] 1 [])
    ((process [fanGpioAnyof] []).1) (by decide)
  exact h

/-- C7 counterexample: a method config whose "sensors" field is present but
holds an empty list still raises the missing-required-properties error, so
the error is not raised exactly when the config lacks the field. -/
theorem getTach_empty_sensors_cex :
    jcontains (JValue.obj [("sensors", .arr [])]) "sensors" = true ∧
    getTach 0 (JValue.obj [("sensors", .arr [])]) =
      .error .missingTachProps :=
  ⟨rfl, rfl⟩

/-- C7 amended: `getTach` raises the fatal missing-properties error exactly
when "sensors" is absent or holds an empty value; `getGpio` raises its fatal
missing-properties error exactly when one of "physpath", "devpath", "key" is
absent; both errors are raised synchronously by the factory (`Except` result
of the factory call itself); and with the required fields present and
well-typed (and "sensors" non-empty) each factory returns a constructed
sensor. -/
theorem method_factories_spec :
    (∀ i m, getTach i m = .error .missingTachProps ↔
      (¬jcontains m "sensors" = true ∨
        jsize ((jget m "sensors").getD .null) = 0)) ∧
    (∀ i m, getGpio i m = .error .missingGpioProps ↔
      (¬jcontains m "physpath" = true ∨ ¬jcontains m "devpath" = true ∨
        ¬jcontains m "key" = true)) ∧
    (∀ i m xs names, jget m "sensors" = some (.arr xs) → xs ≠ [] →
      getTach.collectStrings xs = some names →
      getTach i m = .ok (some (.tach i names))) ∧
    (∀ i m physpath devpath key,
      jget m "physpath" = some (.str physpath) →
      jget m "devpath" = some (.str devpath) →
      jget m "key" = some (.num key) →
      getGpio i m = .ok (some (.gpio i physpath devpath key))) := by
  refine ⟨?_, ?_, ?_, ?_⟩
  · intro i m
    unfold getTach
    split
    · rename_i hcond
      exact iff_of_true rfl hcond
    · rename_i hcond
      refine iff_of_false ?_ hcond
      split
      · split <;> simp
      · simp
  · intro i m
    unfold getGpio
    split
    · rename_i hcond
      exact iff_of_true rfl hcond
    · rename_i hcond
      refine iff_of_false ?_ hcond
      split <;> simp
  · intro i m xs names hxs hne hcs
    have hc : jcontains m "sensors" = true := by simp [jcontains, hxs]
    have hcond : ¬(¬jcontains m "sensors" = true ∨
        jsize ((jget m "sensors").getD .null) = 0) := by
      simp [hc, hxs, jsize, List.length_eq_zero]
      exact hne
    unfold getTach
    rw [if_neg hcond]
    simp [hxs, hcs]
  · intro i m physpath devpath key h1 h2 h3
    have hcond : ¬(¬jcontains m "physpath" = true ∨ ¬jcontains m "devpath" = true ∨
        ¬jcontains m "key" = true) := by
      simp [jcontains, h1, h2, h3]
    unfold getGpio
    rw [if_neg hcond]
    simp [h1, h2, h3]

/-- C7 amended witness: a tach method with one sensor name and a gpio method
with all three fields construct sensors; concrete evaluations. -/
theorem method_factories_spec_witness :
    getTach 2 (JValue.obj [("sensors", .arr [.str "fan0_0"])]) =
      .ok (some (.tach 2 ["fan0_0"])) ∧
    getGpio 1 (JValue.obj [("physpath", .str "/sys/a"), ("devpath", .str "/dev/b"),
      ("key", .num 4)]) = .ok (some (.gpio 1 "/sys/a" "/dev/b" 4)) :=
  ⟨method_factories_spec.2.2.1 2 _ [.str "fan0_0"] ["fan0_0"] rfl
      (by simp) rfl,
   method_factories_spec.2.2.2 1 _ "/sys/a" "/dev/b" 4 rfl rfl rfl⟩

/-- C10: a present-but-empty "sensors" list is treated identically to a
missing field — both raise the missing-required-tach-properties error — and
every tach presence sensor actually constructed holds at least one sensor
name. -/
theorem getTach_nonempty_spec :
    (∀ i m, jget m "sensors" = some (.arr []) →
      getTach i m = .error .missingTachProps) ∧
    (∀ i m, jget m "sensors" = none →
      getTach i m = .error .missingTachProps) ∧
    (∀ i m r, getTach i m = .ok r →
      ∃ names, r = some (.tach i names) ∧ names ≠ []) := by
  refine ⟨?_, ?_, ?_⟩
  · intro i m h
    simp [getTach, h, jsize]
  · intro i m h
    simp [getTach, jcontains, h]
  · intro i m r h
    unfold getTach at h
    split at h
    · simp at h
    · rename_i hcond
      split at h
      · rename_i xs hxs
        split at h
        · rename_i names hcs
          refine ⟨names, by simpa using h.symm, ?_⟩
          have hlen := collectStrings_length xs names hcs
          have hxs_ne : xs ≠ [] := by
            intro hnil
            exact hcond (Or.inr (by simp [hxs, hnil, jsize]))
          intro hnil
          rw [hnil] at hlen
          exact hxs_ne (List.eq_nil_of_length_eq_zero hlen.symm)
        · simp at h
      · simp at h

/-- C10 witness: empty-list and missing "sensors" both fail; a constructed
tach sensor at a concrete input carries a non-empty name list. -/
theorem getTach_nonempty_spec_witness :
    getTach 0 (JValue.obj [("sensors", .arr []), ("type", .str "tach")]) =
      .error .missingTachProps ∧
    getTach 0 (JValue.obj [("type", .str "tach")]) =
      .error .missingTachProps ∧
    ∃ names, (some (PresenceSensor.tach 5 ["a", "b"]) : Option PresenceSensor) =
      some (.tach 5 names) ∧ names ≠ [] :=
  ⟨getTach_nonempty_spec.1 0 _ rfl,
   getTach_nonempty_spec.2.1 0 _ rfl,
   getTach_nonempty_spec.2.2 5 (JValue.obj [("sensors", .arr [.str "a", .str "b"])])
     (some (.tach 5 ["a", "b"])) rfl⟩

/-- C6: `process` fixes the fan vector's capacity at the number of document
entries before the loop appends any record; each fan declaration appends at
most one record and exactly one on success; hence the record count never
exceeds the reserved capacity — also in the partial state of a failed load —
and the vector never outgrows the reservation made before any policy
captured a reference into it. -/
theorem process_capacity_spec :
    (∀ jsonConf pols, process jsonConf pols =
      processLoop jsonConf
        { fans := [], fansCap := jsonConf.length, policies := pols }) ∧
    (∀ member s, (processMember member s).1.fans.length ≤ s.fans.length + 1 ∧
      ((processMember member s).2 = none →
        (processMember member s).1.fans.length = s.fans.length + 1)) ∧
    (∀ jsonConf pols,
      (process jsonConf pols).1.fansCap = jsonConf.length ∧
      (process jsonConf pols).1.fans.length ≤ (process jsonConf pols).1.fansCap ∧
      ((process jsonConf pols).2 = none →
        (process jsonConf pols).1.fans.length = jsonConf.length)) := by
  refine ⟨fun _ _ => rfl, ?_, ?_⟩
  · intro member s
    obtain ⟨_, hlen, _, hok⟩ := processMember_state member s
    exact ⟨hlen, fun h => (hok h).1⟩
  · intro jsonConf pols
    obtain ⟨hcap, hlen, _, hok⟩ := processLoop_state jsonConf
      { fans := [], fansCap := jsonConf.length, policies := pols }
    refine ⟨hcap, ?_, fun h => by simpa using (hok h).1⟩
    rw [show (process jsonConf pols).1.fansCap = jsonConf.length from hcap]
    simpa using hlen

/-- C6 witness: a one-entry document reserves capacity 1 and a successful
load appends exactly one fan record. -/
theorem process_capacity_spec_witness :
    (process [fanGpioAnyof] []).1.fansCap = 1 ∧
    (process [fanGpioAnyof] []).1.fans.length = 1 :=
  ⟨(process_capacity_spec.2.2 [fanGpioAnyof] []).1,
   (process_capacity_spec.2.2 [fanGpioAnyof] []).2.2 rfl⟩

/-- C9 counterexample: the consequence of the claim fails — no configuration
document can be fully processed while some fan declaration contributes no
policy entry, because with the registered tables every handler either throws
or returns a non-null object. -/
theorem no_null_handler_cex :
    ¬∃ (jsonConf : List JValue) (s₂ : ConfigState),
        process jsonConf [] = (s₂, none) ∧
        s₂.policies.length ≠ jsonConf.length := by
  rintro ⟨jsonConf, s₂, h, hne⟩
  have h2 : processLoop jsonConf
      { fans := [], fansCap := jsonConf.length, policies := [] } = (s₂, none) := h
  have hok := (processLoop_state jsonConf
    { fans := [], fansCap := jsonConf.length, policies := [] }).2.2.2
  rw [h2] at hok
  exact hne (by simpa using (hok rfl).2)

/-- C9 amended: the null guards in `process` and `addPolicy` are present but
unreachable — every registered method handler either throws or returns a
non-null sensor, every registered policy handler returns a non-null policy —
so a successfully loaded document registers exactly one policy per fan
declaration, and no fully processed fan contributes nothing. -/
theorem process_policy_count_spec :
    (∀ k f, lookupKey k methodsTable = some f →
      ∀ i m, f i m ≠ .ok none) ∧
    (∀ k f, lookupKey k rpoliciesTable = some f →
      ∀ fan, ∃ p, f fan = some p) ∧
    (∀ jsonConf pols s₂, process jsonConf pols = (s₂, none) →
      s₂.policies.length = pols.length + jsonConf.length) := by
  refine ⟨methodsTable_no_null, rpoliciesTable_total, ?_⟩
  intro jsonConf pols s₂ h
  have h2 : processLoop jsonConf
      { fans := [], fansCap := jsonConf.length, policies := pols } = (s₂, none) := h
  have hok := (processLoop_state jsonConf
    { fans := [], fansCap := jsonConf.length, policies := pols }).2.2.2
  rw [h2] at hok
  simpa using (hok rfl).2

/-- C9 amended witness: a one-fan document registers exactly one policy. -/
theorem process_policy_count_spec_witness :
    ((process [fanGpioAnyof] []).1).policies.length = 0 + 1 :=
  process_policy_count_spec.2.2 [fanGpioAnyof] []
    (process [fanGpioAnyof] []).1 rfl

/-- C1 counterexample: loading a two-fan document whose second fan has a
method entry missing "type" fails, but the first fan's policy remains in the
static policy set — the post-failure set differs from the pre-load empty
set. -/
theorem partial_policy_retained_cex :
    (process [fanGpioAnyof, fanNoMethodType] []).2 =
      some .missingMethodType ∧
    (process [fanGpioAnyof, fanNoMethodType] []).1.policies =
      [.anyOf ("fan0", "/p0") [.gpio 0 "a" "b" 1]] :=
  ⟨rfl, rfl⟩

/-- C1 amended: when the configuration pass reaches a fan entry whose
methods list has an entry missing "type" (the preceding document entries
having processed without error), the entire load fails with the fatal
missing-method-type error; the policy set is not rolled back, however: the
set registered before the load persists, extended by the policies of the
fan entries successfully processed earlier in the same document. -/
theorem process_failure_retains_policies
    (pre post : List JValue) (member : JValue) (pols : List RedundancyPolicy)
    (methods : List JValue) (s₁ : ConfigState)
    (hpre : processLoop pre
      { fans := [], fansCap := (pre ++ member :: post).length,
        policies := pols } = (s₁, none))
    (hkeys : jcontains member "name" = true ∧ jcontains member "path" = true ∧
      jcontains member "methods" = true ∧ jcontains member "rpolicy" = true)
    (hmethods : jget member "methods" = some (.arr methods))
    (hfail : processMethods pre.length methods = .error .missingMethodType) :
    process (pre ++ member :: post) pols = (s₁, some .missingMethodType) ∧
    ∃ t, s₁.policies = pols ++ t := by
  have hlen : s₁.fans.length = pre.length := by
    have hok := (processLoop_state pre
      { fans := [], fansCap := (pre ++ member :: post).length,
        policies := pols }).2.2.2
    rw [hpre] at hok
    simpa using (hok rfl).1
  have hmem : processMember member s₁ = (s₁, some .missingMethodType) := by
    unfold processMember
    rw [if_neg (not_not_intro hkeys)]
    simp only [hmethods]
    rw [hlen, hfail]
  constructor
  · show processLoop (pre ++ member :: post)
      { fans := [], fansCap := (pre ++ member :: post).length,
        policies := pols } = (s₁, some .missingMethodType)
    rw [processLoop_append, hpre]
    simp only [processLoop, hmem]
  · have hmono := (processLoop_state pre
      { fans := [], fansCap := (pre ++ member :: post).length,
        policies := pols }).2.2.1
    rw [hpre] at hmono
    exact hmono

/-- C1 amended witness: the concrete two-fan document — failure reported,
first fan's policy retained. -/
theorem process_failure_retains_policies_witness :
    process [fanGpioAnyof, fanNoMethodType] [] =
      ({ fans := [(("fan0", "/p0"), [.gpio 0 "a" "b" 1])],
         fansCap := 2,
         policies := [.anyOf ("fan0", "/p0") [.gpio 0 "a" "b" 1]] },
       some .missingMethodType) ∧
    ∃ t, ({ fans := [(("fan0", "/p0"), [.gpio 0 "a" "b" 1])],
            fansCap := 2,
            policies := [.anyOf ("fan0", "/p0") [.gpio 0 "a" "b" 1]] } :
          ConfigState).policies = [] ++ t :=
  process_failure_retains_policies [fanGpioAnyof] [] fanNoMethodType []
    [.obj []]
    { fans := [(("fan0", "/p0"), [.gpio 0 "a" "b" 1])],
      fansCap := 2,
      policies := [.anyOf ("fan0", "/p0") [.gpio 0 "a" "b" 1]] }
    rfl ⟨rfl, rfl, rfl, rfl⟩ rfl rfl

end FanPresence
